import Mathlib

/-!
Shallow embedding of the lookup-table generator implemented by the `build`
task of `gulpfile.js` (the bryt repository), together with proofs of the
specified properties.

Buffers are modelled as `List Nat` of byte values; JavaScript numbers in
this code are nonnegative integers, modelled as `Nat`.
-/

/-- Brightness of an RGB triple, gulpfile.js line 58:
`((r * 299 + g * 587 + b * 114) / 1000) | 0`.  For the integer numerators
arising here (at most 255000) the double-precision division followed by
`|0` truncation coincides with truncating natural-number division. -/
def brightness (r g b : Nat) : Nat :=
  (r * 299 + g * 587 + b * 114) / 1000

/-- Packed RGB integer, gulpfile.js line 62: `(r << 16) + (g << 8) + b`. -/
def pack (r g b : Nat) : Nat :=
  r * 65536 + g * 256 + b

/-- The enumeration order of the triple loop, gulpfile.js lines 55-57:
`b` outermost, then `g`, then `r` innermost, each from 0 to 255. -/
def allTriples : List (Nat × Nat × Nat) :=
  (List.range 256).flatMap fun b =>
    (List.range 256).flatMap fun g =>
      (List.range 256).map fun r => (b, g, r)

/-- Brightness of an enumerated `(b, g, r)` triple. -/
def brightnessT (t : Nat × Nat × Nat) : Nat :=
  brightness t.2.2 t.2.1 t.1

/-- Packed value of an enumerated `(b, g, r)` triple. -/
def packT (t : Nat × Nat × Nat) : Nat :=
  pack t.2.2 t.2.1 t.1

/-- Contents of `results[L]` after the triple loop, gulpfile.js lines 55-65:
the packed values pushed in enumeration order whose brightness is `L`. -/
def bucket (L : Nat) : List Nat :=
  (allTriples.filter fun t => brightnessT t == L).map packT

/-- The in-place numeric sort of gulpfile.js line 68, comparator
`(a, b) => a < b ? -1 : a > b ? 1 : 0`, i.e. sorting ascending by `≤`. -/
def sortJS (l : List Nat) : List Nat :=
  l.mergeSort fun a b => a ≤ b

/-- The sorted colors of one brightness level (gulpfile.js line 68). -/
def sortedBucket (L : Nat) : List Nat :=
  sortJS (bucket L)

/-- The range-building loop of gulpfile.js lines 75-85, after the first
color has been shifted off: `last` is the previously seen color, `cur` the
range currently being extended (`ranges[range]`), and the remaining colors
are scanned in order.  `i > last + 1` closes the current range and starts a
new one at `i`; otherwise `i` is pushed onto the current range. -/
def buildRuns (last : Nat) (cur : List Nat) : List Nat → List (List Nat)
  | [] => [cur]
  | i :: rest =>
    if last + 1 < i then cur :: buildRuns i [i] rest
    else buildRuns i (cur ++ [i]) rest

/-- The full range encoder of gulpfile.js lines 68-85.  `colors.shift()` on
an empty JavaScript array yields `undefined` and the loop body never runs,
so an empty bucket produces `ranges = [[undefined]]`; the `undefined`
placeholder is modelled as `none` and ordinary colors as `some`. -/
def encodeRanges (colors : List Nat) : List (List (Option Nat)) :=
  match colors with
  | [] => [[none]]
  | c :: cs => (buildRuns c [c] cs).map (List.map some)

/-- The ranges computed for level `L` by the build loop.  Every pipeline
bucket is nonempty (see `bucket_ne_nil`), so only the cons branch is ever
taken; it agrees with `encodeRanges` via `encodeRanges_eq_map`. -/
def levelRangesN (L : Nat) : List (List Nat) :=
  match sortedBucket L with
  | [] => []
  | c :: cs => buildRuns c [c] cs

/-- Node's `Buffer.writeUInt32LE value offset`: store the four
little-endian bytes of `value` at `offset .. offset+3`. -/
def writeUInt32LE (buf : List Nat) (v off : Nat) : List Nat :=
  (((buf.set off (v % 256)).set (off + 1) (v / 256 % 256)).set
      (off + 2) (v / 65536 % 256)).set (off + 3) (v / 16777216 % 256)

/-- The record-writing loop of gulpfile.js lines 92-98: for each range, its
element count (`ranges[i].length`) then its first color (`ranges[i][0]`),
each as a 32-bit little-endian value, advancing the offset by 8. -/
def writeRecords (buf : List Nat) (off : Nat) : List (List Nat) → List Nat
  | [] => buf
  | r :: rs =>
    writeRecords (writeUInt32LE (writeUInt32LE buf r.length off) r.headI (off + 4)) (off + 8) rs

/-- The final value of the `offset` variable of gulpfile.js lines 92-97
(two `offset += 4` steps per range). -/
def recordsEndOffset (off : Nat) : List (List Nat) → Nat
  | [] => off
  | _ :: rs => recordsEndOffset (off + 4 + 4) rs

/-- The `before` buffer construction of gulpfile.js lines 88-98:
`Buffer.alloc(Math.max(4 + ranges.length * 8, 80))` (zero-filled), the
total color count at offset 0, then the range records from offset 4. -/
def serializeLevel (total : Nat) (rs : List (List Nat)) : List Nat :=
  writeRecords (writeUInt32LE (List.replicate (max (4 + rs.length * 8) 80) 0) total 0) 4 rs

/-- Node's `Buffer.readUInt32LE offset`: recombine the four little-endian
bytes at `offset .. offset+3` (out-of-range reads yield 0 here; all reads
used below are in range). -/
def readUInt32LE (buf : List Nat) (off : Nat) : Nat :=
  buf.getD off 0 + buf.getD (off + 1) 0 * 256 + buf.getD (off + 2) 0 * 65536 +
    buf.getD (off + 3) 0 * 16777216

/-- The compression do/while loop of gulpfile.js lines 103-109.  `compress`
is the opaque compressor (`brotli.compress`), refusal modelled as `none`.
On refusal the code runs `before.writeUInt8(0, offset++)`: a Node `Buffer`
has fixed length, so a write at `offset < before.length` stores a zero byte
in place (the length does not change), while a write at
`offset ≥ before.length` throws a `RangeError`, modelled as
`Except.error`.  On success the result and the current offset (the
instrumented length of data written) are returned. -/
def driverLoop (compress : List Nat → Option (List Nat)) (before : List Nat) (offset : Nat) :
    Except String (List Nat × Nat) :=
  match compress before with
  | some after => Except.ok (after, offset)
  | none =>
    if h : offset < before.length then
      driverLoop compress (before.set offset 0) (offset + 1)
    else
      Except.error "RangeError"
termination_by before.length - offset
decreasing_by simp only [List.length_set]; omega

/-- Modelled from the spec: the mock compressor of testable property 6,
which refuses inputs shorter than `K` bytes and accepts inputs of at least
`K` bytes (returning, say, the input itself). -/
def mockCompress (K : Nat) (l : List Nat) : Option (List Nat) :=
  if l.length < K then none else some l

/-- Modelled from the spec: the decoder of a level file (the repository's
runtime lookup side, which is not part of the build script): read the
4-byte count header, then each 8-byte record as a 32-bit little-endian
length followed by a 32-bit little-endian start, expanding each record to
the integers `start .. start+length-1`.  Zero-filled padding records expand
to nothing. -/
def decodeLevel (buf : List Nat) : List Nat :=
  (List.range ((buf.length - 4) / 8)).flatMap fun i =>
    List.range' (readUInt32LE buf (4 + 8 * i + 4)) (readUInt32LE buf (4 + 8 * i))

/-- The `counts` array pushed once per level in ascending level order
(gulpfile.js line 114) and persisted as `index.json` (line 125). -/
def countsList : List Nat :=
  (List.range 256).map fun L => (bucket L).length

/-- The pre-compression buffer built for level `L` (gulpfile.js lines
88-98): total count is `colors.length` captured at line 69, i.e. the
bucket's size. -/
def levelBuffer (L : Nat) : List Nat :=
  serializeLevel (bucket L).length (levelRangesN L)

/-- One file-system write performed by the build task: a per-level `.br`
file (gulpfile.js line 116) or the final `index.json` (line 125). -/
inductive WriteEvent
  | levelFile (L : Nat) (data : Except String (List Nat × Nat))
  | indexFile (counts : List Nat)

/-- The sequence of file-system writes performed by the build loop
(gulpfile.js lines 67-125) under a compressor that never refuses (spec
section 6 requires the core to work with any such compressor): one level
file per brightness level 0..255 in ascending order, each holding the
driver's output for that level's buffer, followed by the single index
write. -/
def buildTrace (compress : List Nat → List Nat) : List WriteEvent :=
  ((List.range 256).map fun L =>
    WriteEvent.levelFile L
      (driverLoop (fun b => some (compress b)) (levelBuffer L)
        (recordsEndOffset 4 (levelRangesN L)))) ++
  [WriteEvent.indexFile countsList]

/-! ### Arithmetic facts about the brightness formula and packing -/

lemma brightness_le_255 {r g b : Nat} (hr : r ≤ 255) (hg : g ≤ 255) (hb : b ≤ 255) :
    brightness r g b ≤ 255 := by
  unfold brightness
  omega

lemma brightness_gray (L : Nat) : brightness L L L = L := by
  unfold brightness
  omega

/-! ### The enumeration and the per-level buckets -/

lemma length_flatMap' {α β : Type} (l : List α) (f : α → List β) :
    (l.flatMap f).length = (l.map fun a => (f a).length).sum := by
  simp only [List.flatMap_def, List.length_flatten, List.map_map]
  rfl

lemma mem_allTriples (t : Nat × Nat × Nat) :
    t ∈ allTriples ↔ t.1 < 256 ∧ t.2.1 < 256 ∧ t.2.2 < 256 := by
  obtain ⟨b, g, r⟩ := t
  simp [allTriples, List.mem_range]
  aesop

lemma length_allTriples : allTriples.length = 16777216 := by
  unfold allTriples
  rw [length_flatMap']
  simp only [length_flatMap', List.length_map, List.length_range, List.map_const']
  rw [List.sum_replicate, smul_eq_mul]
  rw [List.sum_replicate, smul_eq_mul]

lemma nodup_allTriples : allTriples.Nodup := by
  unfold allTriples
  rw [List.nodup_flatMap]
  constructor
  · intro b _
    rw [List.nodup_flatMap]
    constructor
    · intro g _
      exact (List.nodup_range 256).map fun r r' h => by simpa using h
    · refine (List.nodup_range 256).imp ?_
      intro g g' hne x hx hx'
      simp only [List.mem_map] at hx hx'
      obtain ⟨r, _, rfl⟩ := hx
      obtain ⟨r', _, h⟩ := hx'
      exact hne (by simpa using congrArg (fun p => p.2.1) h.symm)
  · refine (List.nodup_range 256).imp ?_
    intro b b' hne x hx hx'
    simp only [List.mem_flatMap, List.mem_map] at hx hx'
    obtain ⟨g, _, r, _, rfl⟩ := hx
    obtain ⟨g', _, r', _, h⟩ := hx'
    exact hne (by simpa using congrArg (fun p => p.1) h.symm)

lemma length_bucket_countP (L : Nat) :
    (bucket L).length = allTriples.countP fun t => brightnessT t == L := by
  simp [bucket, List.countP_eq_length_filter]

lemma bucket_length_le (L : Nat) : (bucket L).length ≤ 16777216 := by
  calc (bucket L).length = (allTriples.filter fun t => brightnessT t == L).length := by
        simp [bucket]
    _ ≤ allTriples.length := (List.filter_sublist _).length_le
    _ = 16777216 := length_allTriples

lemma nodup_bucket (L : Nat) : (bucket L).Nodup := by
  unfold bucket
  apply List.Nodup.map_on
  · intro x hx y hy hxy
    have hx' := (mem_allTriples x).1 (List.mem_of_mem_filter hx)
    have hy' := (mem_allTriples y).1 (List.mem_of_mem_filter hy)
    obtain ⟨xb, xg, xr⟩ := x
    obtain ⟨yb, yg, yr⟩ := y
    simp only [packT, pack] at hxy
    simp only at hx' hy'
    have : xb = yb ∧ xg = yg ∧ xr = yr := by omega
    simp [this.1, this.2.1, this.2.2]
  · exact nodup_allTriples.filter _

lemma mem_bucket {v L : Nat} :
    v ∈ bucket L ↔ v < 16777216 ∧ brightness (v / 65536) (v / 256 % 256) (v % 256) = L := by
  unfold bucket
  simp only [List.mem_map, List.mem_filter]
  constructor
  · rintro ⟨⟨b, g, r⟩, ⟨hmem, hbr⟩, hpack⟩
    have hb := (mem_allTriples _).1 hmem
    simp only at hb
    simp only [brightnessT, beq_iff_eq] at hbr
    simp only [packT, pack] at hpack
    subst hpack
    have h1 : (r * 65536 + g * 256 + b) / 65536 = r := by omega
    have h2 : (r * 65536 + g * 256 + b) / 256 % 256 = g := by omega
    have h3 : (r * 65536 + g * 256 + b) % 256 = b := by omega
    rw [h1, h2, h3]
    exact ⟨by omega, hbr⟩
  · rintro ⟨hv, hbr⟩
    refine ⟨(v % 256, v / 256 % 256, v / 65536), ⟨?_, ?_⟩, ?_⟩
    · rw [mem_allTriples]
      show v % 256 < 256 ∧ v / 256 % 256 < 256 ∧ v / 65536 < 256
      omega
    · simp only [brightnessT, beq_iff_eq]
      exact hbr
    · simp only [packT, pack]
      omega

lemma bucket_ne_nil {L : Nat} (hL : L < 256) : bucket L ≠ [] := by
  intro hnil
  have hmem : pack L L L ∈ bucket L := by
    rw [mem_bucket]
    unfold pack
    have h1 : (L * 65536 + L * 256 + L) / 65536 = L := by omega
    have h2 : (L * 65536 + L * 256 + L) / 256 % 256 = L := by
      have e : L * 65536 + L * 256 + L = 256 * (L * 256 + L) + L := by ring
      rw [e, Nat.mul_add_div (by norm_num), Nat.div_eq_of_lt hL]
      omega
    have h3 : (L * 65536 + L * 256 + L) % 256 = L := by omega
    rw [h1, h2, h3]
    exact ⟨by omega, brightness_gray L⟩
  rw [hnil] at hmem
  exact List.not_mem_nil _ hmem

lemma sum_countP_levels {α : Type} (f : α → Nat) (n : Nat) (l : List α)
    (h : ∀ a ∈ l, f a < n) :
    (Finset.range n).sum (fun L => l.countP fun a => f a == L) = l.length := by
  induction l with
  | nil => simp
  | cons a l ih =>
    have ha : f a < n := h a (List.mem_cons_self a l)
    have ih' := ih fun x hx => h x (List.mem_cons_of_mem a hx)
    simp only [List.countP_cons, List.length_cons]
    rw [Finset.sum_add_distrib, ih']
    have : (Finset.range n).sum (fun L => if (f a == L) then 1 else 0) = 1 := by
      simp only [beq_iff_eq]
      rw [Finset.sum_ite_eq (Finset.range n) (f a) (fun _ => 1)]
      simp [ha]
    omega

lemma brightnessT_lt_256 {t : Nat × Nat × Nat} (ht : t ∈ allTriples) : brightnessT t < 256 := by
  have hb := (mem_allTriples t).1 ht
  have := brightness_le_255 (r := t.2.2) (g := t.2.1) (b := t.1)
    (by omega) (by omega) (by omega)
  unfold brightnessT
  omega

/-! ### Sorting facts -/

lemma sortJS_perm (l : List Nat) : (sortJS l).Perm l :=
  List.mergeSort_perm l _

lemma sortJS_sorted (l : List Nat) : (sortJS l).Sorted (· ≤ ·) :=
  List.sorted_mergeSort' l

lemma sortedBucket_perm (L : Nat) : (sortedBucket L).Perm (bucket L) :=
  sortJS_perm _

lemma sortedBucket_nodup (L : Nat) : (sortedBucket L).Nodup :=
  (sortedBucket_perm L).nodup_iff.2 (nodup_bucket L)

lemma sortedBucket_chain' (L : Nat) : List.Chain' (· < ·) (sortedBucket L) :=
  List.chain'_iff_pairwise.2 ((sortJS_sorted _).lt_of_le (sortedBucket_nodup L))

lemma sortedBucket_length (L : Nat) : (sortedBucket L).length = (bucket L).length :=
  (sortedBucket_perm L).length_eq

lemma sortedBucket_ne_nil {L : Nat} (hL : L < 256) : sortedBucket L ≠ [] := by
  intro hnil
  have := sortedBucket_length L
  rw [hnil] at this
  exact bucket_ne_nil hL (List.eq_nil_of_length_eq_zero this.symm)

/-! ### Properties of the range encoder -/

lemma headI_range' {s n : Nat} (h : 0 < n) : (List.range' s n).headI = s := by
  cases n with
  | zero => omega
  | succ n => rw [List.range'_succ]; rfl

lemma mem_range'_iff {m s n : Nat} : m ∈ List.range' s n ↔ s ≤ m ∧ m < s + n := by
  rw [List.mem_range']
  constructor
  · rintro ⟨i, hi, rfl⟩
    omega
  · rintro ⟨h1, h2⟩
    exact ⟨m - s, by omega, by omega⟩

lemma buildRuns_flatten (rest : List Nat) :
    ∀ (last : Nat) (cur : List Nat), (buildRuns last cur rest).flatten = cur ++ rest := by
  induction rest with
  | nil => intro last cur; simp [buildRuns]
  | cons i rest ih =>
    intro last cur
    rw [buildRuns]
    by_cases h : last + 1 < i
    · rw [if_pos h]
      simp [ih]
    · rw [if_neg h]
      rw [ih]
      simp

lemma buildRuns_spec (rest : List Nat) :
    ∀ (s n : Nat), 0 < n →
      List.Chain' (· < ·) ((s + n - 1) :: rest) →
      (∀ r ∈ buildRuns (s + n - 1) (List.range' s n) rest,
          ∃ a m, 0 < m ∧ r = List.range' a m) ∧
      List.Chain' (fun A B => A.headI + A.length < B.headI)
        (buildRuns (s + n - 1) (List.range' s n) rest) ∧
      (buildRuns (s + n - 1) (List.range' s n) rest).headI.headI = s ∧
      buildRuns (s + n - 1) (List.range' s n) rest ≠ [] := by
  induction rest with
  | nil =>
    intro s n hn _
    refine ⟨?_, ?_, ?_, ?_⟩
    · intro r hr
      rw [buildRuns, List.mem_singleton] at hr
      exact ⟨s, n, hn, hr⟩
    · rw [buildRuns]
      exact List.chain'_singleton _
    · rw [buildRuns]
      simp [headI_range' hn]
    · rw [buildRuns]
      simp
  | cons i rest ih =>
    intro s n hn hchain
    rw [List.chain'_cons] at hchain
    obtain ⟨hlast, hchain'⟩ := hchain
    rw [buildRuns]
    by_cases h : s + n - 1 + 1 < i
    · rw [if_pos h]
      have ihapp := ih i 1 (by omega) (by rw [show i + 1 - 1 = i by omega]; exact hchain')
      rw [show i + 1 - 1 = i by omega] at ihapp
      rw [show List.range' i 1 = [i] by simp] at ihapp
      obtain ⟨hmem, hchainsep, hheadI, hne⟩ := ihapp
      obtain ⟨hd, tl, hout⟩ := List.exists_cons_of_ne_nil hne
      refine ⟨?_, ?_, ?_, ?_⟩
      · intro r hr
        rcases List.mem_cons.1 hr with hr | hr
        · exact ⟨s, n, hn, hr⟩
        · exact hmem r hr
      · rw [List.chain'_cons']
        refine ⟨?_, hchainsep⟩
        intro b hb
        rw [hout] at hb hheadI
        simp only [List.head?_cons, Option.mem_some_iff] at hb
        subst hb
        simp only [List.headI_cons] at hheadI
        rw [headI_range' hn, List.length_range']
        omega
      · simp [headI_range' hn]
      · simp
    · rw [if_neg h]
      have hieq : i = s + n := by omega
      have e2 : List.range' s n ++ [i] = List.range' s (n + 1) := by
        rw [List.range'_1_concat, hieq]
      have e1 : i = s + (n + 1) - 1 := by omega
      rw [e2, e1]
      exact ih s (n + 1) (by omega)
        (by rw [show s + (n + 1) - 1 = i by omega]; exact hchain')

lemma flatten_levelRangesN (L : Nat) : (levelRangesN L).flatten = sortedBucket L := by
  unfold levelRangesN
  cases hsb : sortedBucket L with
  | nil => simp
  | cons c cs =>
    rw [buildRuns_flatten]
    simp

lemma levelRangesN_spec (L : Nat) :
    (∀ r ∈ levelRangesN L, ∃ a m, 0 < m ∧ r = List.range' a m) ∧
    List.Chain' (fun A B => A.headI + A.length < B.headI) (levelRangesN L) := by
  unfold levelRangesN
  cases hsb : sortedBucket L with
  | nil => simp
  | cons c cs =>
    have hchain : List.Chain' (· < ·) (c :: cs) := by
      have := sortedBucket_chain' L
      rw [hsb] at this
      exact this
    have hspec := buildRuns_spec cs c 1 (by omega)
      (by rw [show c + 1 - 1 = c by omega]; exact hchain)
    rw [show c + 1 - 1 = c by omega, show List.range' c 1 = [c] by simp] at hspec
    exact ⟨hspec.1, hspec.2.1⟩

lemma levelRangesN_run {L : Nat} {r : List Nat} (hr : r ∈ levelRangesN L) :
    r = List.range' r.headI r.length ∧ r ≠ [] := by
  obtain ⟨a, m, hm, rfl⟩ := (levelRangesN_spec L).1 r hr
  rw [headI_range' hm, List.length_range']
  exact ⟨rfl, by simp [List.range'_eq_nil]; omega⟩

lemma levelRangesN_length_le {L : Nat} {r : List Nat} (hr : r ∈ levelRangesN L) :
    r.length ≤ 16777216 := by
  have hmem : r.length ∈ (levelRangesN L).map List.length := List.mem_map_of_mem _ hr
  have hle : r.length ≤ ((levelRangesN L).map List.length).sum :=
    List.single_le_sum (fun x _ => Nat.zero_le x) _ hmem
  have hsum : ((levelRangesN L).map List.length).sum = (sortedBucket L).length := by
    rw [← List.length_flatten, flatten_levelRangesN]
  rw [hsum, sortedBucket_length] at hle
  exact le_trans hle (bucket_length_le L)

lemma levelRangesN_headI_lt {L : Nat} {r : List Nat} (hr : r ∈ levelRangesN L) :
    r.headI < 16777216 := by
  obtain ⟨_, hne⟩ := levelRangesN_run hr
  obtain ⟨hd, tl, rfl⟩ := List.exists_cons_of_ne_nil hne
  have hmem : hd ∈ (levelRangesN L).flatten :=
    List.mem_flatten_of_mem hr (List.mem_cons_self hd tl)
  rw [flatten_levelRangesN] at hmem
  have := (mem_bucket.1 ((sortedBucket_perm L).mem_iff.1 hmem)).1
  simpa using this

/-! ### Byte-level facts about the binary serializer -/

lemma getD_set_ne {l : List Nat} {i j v : Nat} (h : i ≠ j) :
    (l.set i v).getD j 0 = l.getD j 0 := by
  simp [List.getD_eq_getElem?_getD, List.getElem?_set_ne h]

lemma getD_set_self {l : List Nat} {i v : Nat} (h : i < l.length) :
    (l.set i v).getD i 0 = v := by
  simp [List.getD_eq_getElem?_getD, List.getElem?_set_self h]

lemma length_writeUInt32LE (buf : List Nat) (v off : Nat) :
    (writeUInt32LE buf v off).length = buf.length := by
  simp [writeUInt32LE]

lemma getD_writeUInt32LE_lt {buf : List Nat} {v off j : Nat} (h : j < off) :
    (writeUInt32LE buf v off).getD j 0 = buf.getD j 0 := by
  unfold writeUInt32LE
  rw [getD_set_ne (by omega), getD_set_ne (by omega), getD_set_ne (by omega),
    getD_set_ne (by omega)]

lemma getD_writeUInt32LE_ge {buf : List Nat} {v off j : Nat} (h : off + 4 ≤ j) :
    (writeUInt32LE buf v off).getD j 0 = buf.getD j 0 := by
  unfold writeUInt32LE
  rw [getD_set_ne (by omega), getD_set_ne (by omega), getD_set_ne (by omega),
    getD_set_ne (by omega)]

lemma getD_writeUInt32LE_0 {buf : List Nat} {v off : Nat} (h : off < buf.length) :
    (writeUInt32LE buf v off).getD off 0 = v % 256 := by
  unfold writeUInt32LE
  rw [getD_set_ne (by omega), getD_set_ne (by omega), getD_set_ne (by omega),
    getD_set_self h]

lemma getD_writeUInt32LE_1 {buf : List Nat} {v off : Nat} (h : off + 1 < buf.length) :
    (writeUInt32LE buf v off).getD (off + 1) 0 = v / 256 % 256 := by
  unfold writeUInt32LE
  rw [getD_set_ne (by omega), getD_set_ne (by omega),
    getD_set_self (by simpa using h)]

lemma getD_writeUInt32LE_2 {buf : List Nat} {v off : Nat} (h : off + 2 < buf.length) :
    (writeUInt32LE buf v off).getD (off + 2) 0 = v / 65536 % 256 := by
  unfold writeUInt32LE
  rw [getD_set_ne (by omega), getD_set_self (by simpa using h)]

lemma getD_writeUInt32LE_3 {buf : List Nat} {v off : Nat} (h : off + 3 < buf.length) :
    (writeUInt32LE buf v off).getD (off + 3) 0 = v / 16777216 % 256 := by
  unfold writeUInt32LE
  rw [getD_set_self (by simpa using h)]

lemma readUInt32LE_writeUInt32LE {buf : List Nat} {v off : Nat}
    (hoff : off + 4 ≤ buf.length) (hv : v < 4294967296) :
    readUInt32LE (writeUInt32LE buf v off) off = v := by
  unfold readUInt32LE
  rw [getD_writeUInt32LE_0 (by omega), getD_writeUInt32LE_1 (by omega),
    getD_writeUInt32LE_2 (by omega), getD_writeUInt32LE_3 (by omega)]
  omega

lemma readUInt32LE_writeUInt32LE_lt {buf : List Nat} {v off o : Nat} (h : o + 4 ≤ off) :
    readUInt32LE (writeUInt32LE buf v off) o = readUInt32LE buf o := by
  unfold readUInt32LE
  rw [getD_writeUInt32LE_lt (by omega), getD_writeUInt32LE_lt (by omega),
    getD_writeUInt32LE_lt (by omega), getD_writeUInt32LE_lt (by omega)]

lemma length_writeRecords (rs : List (List Nat)) :
    ∀ buf off, (writeRecords buf off rs).length = buf.length := by
  induction rs with
  | nil => intro buf off; rfl
  | cons r rs ih =>
    intro buf off
    rw [writeRecords, ih]
    simp [length_writeUInt32LE]

lemma getD_writeRecords_lt (rs : List (List Nat)) :
    ∀ buf off j, j < off → (writeRecords buf off rs).getD j 0 = buf.getD j 0 := by
  induction rs with
  | nil => intro buf off j _; rfl
  | cons r rs ih =>
    intro buf off j hj
    rw [writeRecords, ih _ _ _ (by omega), getD_writeUInt32LE_lt (by omega),
      getD_writeUInt32LE_lt (by omega)]

lemma getD_writeRecords_ge (rs : List (List Nat)) :
    ∀ buf off j, off + 8 * rs.length ≤ j →
      (writeRecords buf off rs).getD j 0 = buf.getD j 0 := by
  induction rs with
  | nil => intro buf off j _; rfl
  | cons r rs ih =>
    intro buf off j hj
    simp only [List.length_cons] at hj
    rw [writeRecords, ih _ _ _ (by omega), getD_writeUInt32LE_ge (by omega),
      getD_writeUInt32LE_ge (by omega)]

lemma readUInt32LE_writeRecords_lt (rs : List (List Nat)) {buf : List Nat} {off o : Nat}
    (h : o + 4 ≤ off) :
    readUInt32LE (writeRecords buf off rs) o = readUInt32LE buf o := by
  unfold readUInt32LE
  rw [getD_writeRecords_lt rs _ _ _ (by omega), getD_writeRecords_lt rs _ _ _ (by omega),
    getD_writeRecords_lt rs _ _ _ (by omega), getD_writeRecords_lt rs _ _ _ (by omega)]

lemma read_writeRecords (rs : List (List Nat)) :
    ∀ buf off i, i < rs.length → off + 8 * rs.length ≤ buf.length →
      (∀ r ∈ rs, r.length < 4294967296 ∧ r.headI < 4294967296) →
      readUInt32LE (writeRecords buf off rs) (off + 8 * i) = (rs.getD i []).length ∧
      readUInt32LE (writeRecords buf off rs) (off + 8 * i + 4) = (rs.getD i []).headI := by
  induction rs with
  | nil => intro buf off i hi _ _; simp at hi
  | cons r rs ih =>
    intro buf off i hi hlen hb
    have hbr := hb r (List.mem_cons_self r rs)
    simp only [List.length_cons] at hi hlen
    cases i with
    | zero =>
      simp only [Nat.mul_zero, Nat.add_zero, List.getD_cons_zero]
      rw [writeRecords]
      constructor
      · rw [readUInt32LE_writeRecords_lt rs (by omega),
          readUInt32LE_writeUInt32LE_lt (by omega),
          readUInt32LE_writeUInt32LE (by omega) hbr.1]
      · rw [readUInt32LE_writeRecords_lt rs (by omega),
          readUInt32LE_writeUInt32LE (by simp only [length_writeUInt32LE]; omega) hbr.2]
    | succ i =>
      have e : off + 8 * (i + 1) = (off + 8) + 8 * i := by ring
      rw [writeRecords, List.getD_cons_succ, e]
      exact ih _ (off + 8) i (by omega)
        (by simp only [length_writeUInt32LE]; omega)
        (fun x hx => hb x (List.mem_cons_of_mem r hx))

lemma getD_replicate_zero {n j : Nat} : (List.replicate n (0:Nat)).getD j 0 = 0 := by
  rw [List.getD_eq_getElem?_getD, List.getElem?_replicate]
  split <;> rfl

lemma length_serializeLevel (T : Nat) (rs : List (List Nat)) :
    (serializeLevel T rs).length = max (4 + 8 * rs.length) 80 := by
  unfold serializeLevel
  rw [length_writeRecords, length_writeUInt32LE, List.length_replicate]
  omega

lemma serializeLevel_header (T : Nat) (rs : List (List Nat)) (hT : T < 4294967296) :
    readUInt32LE (serializeLevel T rs) 0 = T := by
  unfold serializeLevel
  rw [readUInt32LE_writeRecords_lt rs (by omega),
    readUInt32LE_writeUInt32LE (by simp only [List.length_replicate]; omega) hT]

lemma serializeLevel_records (T : Nat) (rs : List (List Nat))
    (hb : ∀ r ∈ rs, r.length < 4294967296 ∧ r.headI < 4294967296)
    (i : Nat) (hi : i < rs.length) :
    readUInt32LE (serializeLevel T rs) (4 + 8 * i) = (rs.getD i []).length ∧
    readUInt32LE (serializeLevel T rs) (4 + 8 * i + 4) = (rs.getD i []).headI := by
  unfold serializeLevel
  exact read_writeRecords rs _ 4 i hi
    (by simp only [length_writeUInt32LE, List.length_replicate]; omega) hb

lemma serializeLevel_zeros (T : Nat) (rs : List (List Nat)) {j : Nat}
    (hj : 4 + 8 * rs.length ≤ j) :
    (serializeLevel T rs).getD j 0 = 0 := by
  unfold serializeLevel
  rw [getD_writeRecords_ge rs _ _ _ (by omega), getD_writeUInt32LE_ge (by omega),
    getD_replicate_zero]

/-! ### Decoding the serialized buffer -/

lemma getD_eq_getElem' {l : List (List Nat)} {i : Nat} (h : i < l.length) :
    l.getD i [] = l[i] := by
  simp [List.getD_eq_getElem?_getD, List.getElem?_eq_getElem h]

lemma flatMap_getD_range (rs : List (List Nat)) :
    (List.range rs.length).flatMap (fun i => rs.getD i []) = rs.flatten := by
  induction rs with
  | nil => simp
  | cons r rs ih =>
    rw [List.length_cons, List.range_succ_eq_map, List.flatMap_cons, List.flatMap_map]
    simp only [List.getD_cons_zero, List.getD_cons_succ]
    rw [ih, List.flatten_cons]

lemma decodeLevel_serializeLevel (T : Nat) (rs : List (List Nat))
    (hruns : ∀ r ∈ rs, r = List.range' r.headI r.length)
    (hb : ∀ r ∈ rs, r.length < 4294967296 ∧ r.headI < 4294967296) :
    decodeLevel (serializeLevel T rs) = rs.flatten := by
  unfold decodeLevel
  rw [length_serializeLevel]
  have hRle : rs.length ≤ (max (4 + 8 * rs.length) 80 - 4) / 8 := by omega
  rw [show (max (4 + 8 * rs.length) 80 - 4) / 8 =
      rs.length + ((max (4 + 8 * rs.length) 80 - 4) / 8 - rs.length) by omega]
  rw [List.range_add, List.flatMap_append, List.flatMap_map]
  have hpad : ((List.range ((max (4 + 8 * rs.length) 80 - 4) / 8 - rs.length)).flatMap
      fun a => List.range'
        (readUInt32LE (serializeLevel T rs) (4 + 8 * (rs.length + a) + 4))
        (readUInt32LE (serializeLevel T rs) (4 + 8 * (rs.length + a)))) = [] := by
    rw [List.flatMap_eq_nil_iff]
    intro k _
    have hz : readUInt32LE (serializeLevel T rs) (4 + 8 * (rs.length + k)) = 0 := by
      unfold readUInt32LE
      rw [serializeLevel_zeros T rs (by omega), serializeLevel_zeros T rs (by omega),
        serializeLevel_zeros T rs (by omega), serializeLevel_zeros T rs (by omega)]
    rw [hz, List.range'_zero]
  rw [hpad, List.append_nil]
  have hmain : ∀ i ∈ List.range rs.length,
      List.range' (readUInt32LE (serializeLevel T rs) (4 + 8 * i + 4))
        (readUInt32LE (serializeLevel T rs) (4 + 8 * i)) = rs.getD i [] := by
    intro i hi
    rw [List.mem_range] at hi
    obtain ⟨h1, h2⟩ := serializeLevel_records T rs hb i hi
    rw [h1, h2]
    have hmem : rs.getD i [] ∈ rs := by
      rw [getD_eq_getElem' hi]
      exact List.getElem_mem hi
    exact (hruns _ hmem).symm
  calc ((List.range rs.length).flatMap fun i =>
        List.range' (readUInt32LE (serializeLevel T rs) (4 + 8 * i + 4))
          (readUInt32LE (serializeLevel T rs) (4 + 8 * i)))
      = (List.range rs.length).flatMap fun i => rs.getD i [] := by
        simp only [List.flatMap_def]
        rw [List.map_congr_left hmain]
    _ = rs.flatten := flatMap_getD_range rs

/-! ### Round-trip and unique-membership counting -/

lemma levelRangesN_bounds {L : Nat} {r : List Nat} (hr : r ∈ levelRangesN L) :
    r.length < 4294967296 ∧ r.headI < 4294967296 :=
  ⟨lt_of_le_of_lt (levelRangesN_length_le hr) (by norm_num),
   lt_trans (levelRangesN_headI_lt hr) (by norm_num)⟩

lemma decodeLevel_levelBuffer (L : Nat) : decodeLevel (levelBuffer L) = sortedBucket L := by
  unfold levelBuffer
  rw [decodeLevel_serializeLevel _ _ (fun r hr => (levelRangesN_run hr).1)
    (fun r hr => levelRangesN_bounds hr)]
  exact flatten_levelRangesN L

lemma countP_flatten_nodup {v : Nat} (rs : List (List Nat)) (h : rs.flatten.Nodup) :
    rs.countP (fun r => decide (v ∈ r)) = if v ∈ rs.flatten then 1 else 0 := by
  induction rs with
  | nil => simp
  | cons r rs ih =>
    rw [List.flatten_cons] at h
    have hd := List.disjoint_of_nodup_append h
    have h2 := (List.nodup_append.1 h).2.1
    rw [List.countP_cons, ih h2, List.flatten_cons]
    by_cases hv : v ∈ r
    · have hnv : v ∉ rs.flatten := fun hc => hd hv hc
      simp [hv, hnv, List.mem_append]
    · simp [hv, List.mem_append]

lemma countP_levelRangesN (L v : Nat) :
    (levelRangesN L).countP (fun r => decide (v ∈ r)) = if v ∈ bucket L then 1 else 0 := by
  rw [countP_flatten_nodup _ (by rw [flatten_levelRangesN]; exact sortedBucket_nodup L)]
  rw [flatten_levelRangesN]
  simp only [(sortedBucket_perm L).mem_iff]

lemma sum_countP_ranges (v : Nat) (hv : v < 16777216) :
    (Finset.range 256).sum
      (fun M => (levelRangesN M).countP fun r => decide (v ∈ r)) = 1 := by
  have hbv : brightness (v / 65536) (v / 256 % 256) (v % 256) < 256 := by
    have := brightness_le_255 (r := v / 65536) (g := v / 256 % 256) (b := v % 256)
      (by omega) (by omega) (by omega)
    omega
  calc (Finset.range 256).sum
        (fun M => (levelRangesN M).countP fun r => decide (v ∈ r))
      = (Finset.range 256).sum (fun M => if v ∈ bucket M then 1 else 0) :=
        Finset.sum_congr rfl fun M _ => countP_levelRangesN M v
    _ = (Finset.range 256).sum
        (fun M => if brightness (v / 65536) (v / 256 % 256) (v % 256) = M then 1 else 0) :=
        Finset.sum_congr rfl fun M _ => by simp [mem_bucket, hv]
    _ = 1 := by
        rw [Finset.sum_ite_eq (Finset.range 256) _ (fun _ => 1)]
        simp [hbv]

/-! ### The compression retry driver -/

lemma driverLoop_total (compress : List Nat → List Nat) (before : List Nat) (offset : Nat) :
    driverLoop (fun b => some (compress b)) before offset =
      Except.ok (compress before, offset) := by
  rw [driverLoop]

lemma driverLoop_mock_error (K : Nat) :
    ∀ (n : Nat) (before : List Nat) (offset : Nat),
      before.length - offset ≤ n → before.length < K → offset ≤ before.length →
      driverLoop (mockCompress K) before offset = Except.error "RangeError" := by
  intro n
  induction n with
  | zero =>
    intro before offset hn hK hoff
    have hc : mockCompress K before = none := by simp [mockCompress, hK]
    rw [driverLoop, hc]
    show (if h : offset < before.length then
        driverLoop (mockCompress K) (before.set offset 0) (offset + 1)
      else Except.error "RangeError") = Except.error "RangeError"
    rw [dif_neg (by omega)]
  | succ n ih =>
    intro before offset hn hK hoff
    have hc : mockCompress K before = none := by simp [mockCompress, hK]
    rw [driverLoop, hc]
    show (if h : offset < before.length then
        driverLoop (mockCompress K) (before.set offset 0) (offset + 1)
      else Except.error "RangeError") = Except.error "RangeError"
    by_cases h : offset < before.length
    · rw [dif_pos h]
      exact ih _ _ (by simp only [List.length_set]; omega)
        (by simp only [List.length_set]; omega) (by simp only [List.length_set]; omega)
    · rw [dif_neg h]

/-! ### The count index and the write trace -/

lemma length_countsList : countsList.length = 256 := by
  simp [countsList]

lemma getD_countsList {i : Nat} (hi : i < 256) :
    countsList.getD i 0 = (bucket i).length := by
  unfold countsList
  rw [List.getD_eq_getElem?_getD, List.getElem?_map, List.getElem?_range hi]
  rfl

lemma readUInt32LE_levelBuffer (L : Nat) :
    readUInt32LE (levelBuffer L) 0 = (bucket L).length := by
  unfold levelBuffer
  exact serializeLevel_header _ _ (lt_of_le_of_lt (bucket_length_le L) (by norm_num))

lemma buildTrace_structure (compress : List Nat → List Nat) :
    ∃ pre, buildTrace compress = pre ++ [WriteEvent.indexFile countsList] ∧
      pre.length = 256 ∧ ∀ e ∈ pre, ∃ M d, e = WriteEvent.levelFile M d := by
  refine ⟨_, rfl, by simp, ?_⟩
  intro e he
  rw [List.mem_map] at he
  obtain ⟨M, _, rfl⟩ := he
  exact ⟨M, _, rfl⟩

lemma recordsEndOffset_eq (l : List (List Nat)) :
    ∀ off : Nat, recordsEndOffset off l = off + 8 * l.length := by
  induction l with
  | nil => intro off; simp [recordsEndOffset]
  | cons r l ih =>
    intro off
    rw [recordsEndOffset, ih]
    simp only [List.length_cons]
    omega

lemma encodeRanges_eq_map {L : Nat} (h : sortedBucket L ≠ []) :
    encodeRanges (sortedBucket L) = (levelRangesN L).map (List.map some) := by
  unfold encodeRanges levelRangesN
  cases hsb : sortedBucket L with
  | nil => exact absurd hsb h
  | cons c cs => rfl

/-! ### The claims -/

/-- Claim C1 (code bug): run on the 80-byte all-zero buffer with write
offset 4 against a mock compressor that refuses inputs shorter than 81
bytes, the retry driver terminates with a thrown `RangeError` instead of a
successful result, because `Buffer.writeUInt8` cannot append to a
fixed-length Node buffer: the retry body merely rewrites a zero padding
byte in place (second conjunct: the written buffer is unchanged), so no
attempt's input is ever one byte longer than the last and the input never
reaches 81 bytes. -/
theorem driver_mock_raises :
    driverLoop (mockCompress 81) (List.replicate 80 0) 4 = Except.error "RangeError" ∧
    (List.replicate 80 (0 : Nat)).set 4 0 = List.replicate 80 0 := by
  constructor
  · exact driverLoop_mock_error 81 76 (List.replicate 80 0) 4 (by decide) (by decide) (by decide)
  · decide

/-- Claim C2: the brightness function computes
`floor((299r + 587g + 114b) / 1000)` by truncating integer division, its
result lies in `[0, 255]` for channel values in `[0, 255]`, and it takes
the five specified concrete values. -/
theorem brightness_spec (r g b : Nat) (hr : r ≤ 255) (hg : g ≤ 255) (hb : b ≤ 255) :
    brightness r g b = (299 * r + 587 * g + 114 * b) / 1000 ∧
    brightness r g b ≤ 255 ∧
    brightness 0 0 0 = 0 ∧ brightness 255 255 255 = 255 ∧
    brightness 255 0 0 = 76 ∧ brightness 0 255 0 = 149 ∧ brightness 0 0 255 = 29 := by
  refine ⟨?_, brightness_le_255 hr hg hb, by decide, by decide, by decide, by decide, by decide⟩
  unfold brightness
  congr 1
  ring

theorem brightness_spec_witness :
    brightness 0 0 0 = (299 * 0 + 587 * 0 + 114 * 0) / 1000 ∧
    brightness 0 0 0 ≤ 255 ∧
    brightness 0 0 0 = 0 ∧ brightness 255 255 255 = 255 ∧
    brightness 255 0 0 = 76 ∧ brightness 0 255 0 = 149 ∧ brightness 0 0 255 = 29 :=
  brightness_spec 0 0 0 (by decide) (by decide) (by decide)

/-- Claim C3: summed over all 256 brightness levels, the per-level total
counts of the partition of the full RGB enumeration add up to
16,777,216. -/
theorem bucket_counts_sum :
    (Finset.range 256).sum (fun L => (bucket L).length) = 16777216 := by
  simp only [length_bucket_countP]
  rw [sum_countP_levels brightnessT 256 allTriples (fun t ht => brightnessT_lt_256 ht),
    length_allTriples]

/-- Claim C4: for every brightness level, the total count equals the sum of
the lengths of its ranges, and consecutive ranges `A` then `B` satisfy
`B.start > A.start + A.length` (strictly ascending, non-mergeable). -/
theorem level_ranges_invariants (L : Nat) (hL : L < 256) :
    (bucket L).length = ((levelRangesN L).map List.length).sum ∧
    List.Chain' (fun A B => A.headI + A.length < B.headI) (levelRangesN L) := by
  refine ⟨?_, (levelRangesN_spec L).2⟩
  rw [← List.length_flatten, flatten_levelRangesN, sortedBucket_length]

theorem level_ranges_invariants_witness :
    (bucket 0).length = ((levelRangesN 0).map List.length).sum ∧
    List.Chain' (fun A B => A.headI + A.length < B.headI) (levelRangesN 0) :=
  level_ranges_invariants 0 (by decide)

/-- Claim C5: decoding a level's serialized buffer reproduces exactly the
set of packed RGB integers assigned to that level (no duplicates, no
omissions), and every RGB value below 16,777,216 appears in exactly one
range of exactly one level. -/
theorem decode_roundtrip (L v : Nat) (hL : L < 256) (hv : v < 16777216) :
    (decodeLevel (levelBuffer L)).Nodup ∧
    (∀ x, x ∈ decodeLevel (levelBuffer L) ↔ x ∈ bucket L) ∧
    (Finset.range 256).sum
      (fun M => (levelRangesN M).countP fun r => decide (v ∈ r)) = 1 := by
  refine ⟨?_, ?_, sum_countP_ranges v hv⟩
  · rw [decodeLevel_levelBuffer]
    exact sortedBucket_nodup L
  · intro x
    rw [decodeLevel_levelBuffer]
    exact (sortedBucket_perm L).mem_iff

theorem decode_roundtrip_witness :
    (decodeLevel (levelBuffer 0)).Nodup ∧
    (∀ x, x ∈ decodeLevel (levelBuffer 0) ↔ x ∈ bucket 0) ∧
    (Finset.range 256).sum
      (fun M => (levelRangesN M).countP fun r => decide (0 ∈ r)) = 1 :=
  decode_roundtrip 0 0 (by decide) (by decide)

/-- Claim C6: for a total count `T` and ranges `rs` (each field fitting in
32 bits), the pre-compression buffer has length `max (4 + 8R) 80`, bytes
`[0,4)` hold `T` little-endian, the 8 bytes at `4 + 8i` hold range `i`'s
length then its first value little-endian, and every byte at offset
`≥ 4 + 8R` is zero. -/
theorem serialize_layout (T : Nat) (rs : List (List Nat)) (hT : T < 4294967296)
    (hb : ∀ r ∈ rs, r.length < 4294967296 ∧ r.headI < 4294967296) :
    (serializeLevel T rs).length = max (4 + 8 * rs.length) 80 ∧
    readUInt32LE (serializeLevel T rs) 0 = T ∧
    (∀ i, i < rs.length →
      readUInt32LE (serializeLevel T rs) (4 + 8 * i) = (rs.getD i []).length ∧
      readUInt32LE (serializeLevel T rs) (4 + 8 * i + 4) = (rs.getD i []).headI) ∧
    ∀ j, 4 + 8 * rs.length ≤ j → (serializeLevel T rs).getD j 0 = 0 :=
  ⟨length_serializeLevel T rs, serializeLevel_header T rs hT,
   fun i hi => serializeLevel_records T rs hb i hi,
   fun _ hj => serializeLevel_zeros T rs hj⟩

theorem serialize_layout_witness :
    (serializeLevel 1 [[5]]).length = max (4 + 8 * ([[5]] : List (List Nat)).length) 80 ∧
    readUInt32LE (serializeLevel 1 [[5]]) 0 = 1 ∧
    (∀ i, i < ([[5]] : List (List Nat)).length →
      readUInt32LE (serializeLevel 1 [[5]]) (4 + 8 * i) =
        (([[5]] : List (List Nat)).getD i []).length ∧
      readUInt32LE (serializeLevel 1 [[5]]) (4 + 8 * i + 4) =
        (([[5]] : List (List Nat)).getD i []).headI) ∧
    ∀ j, 4 + 8 * ([[5]] : List (List Nat)).length ≤ j →
      (serializeLevel 1 [[5]]).getD j 0 = 0 :=
  serialize_layout 1 [[5]] (by decide) (by decide)

/-- Claim C7 (counterexample): on an empty bucket the range encoder of the
build loop does not return an empty list of ranges — `colors.shift()`
yields `undefined` and `ranges` becomes `[[undefined]]`. -/
theorem encodeRanges_empty_ne_nil : encodeRanges [] ≠ [] := by
  decide

/-- Claim C7 (amended): given an empty bucket the range encoder does not
fail, but instead of an empty list it returns a single one-element range
holding the `undefined` placeholder shifted off the empty array. -/
theorem encodeRanges_empty_amended :
    encodeRanges [] = [[none]] ∧ (encodeRanges []).length = 1 :=
  ⟨rfl, rfl⟩

/-- Claim C8: the persisted count index has exactly 256 entries, its `i`-th
entry equals the independently computed total count for brightness level
`i` (and matches the count header serialized into level `i`'s buffer), and
in the build's write sequence the single index write comes after all 256
per-level file writes. -/
theorem index_artifact (compress : List Nat → List Nat) (i : Nat) (hi : i < 256) :
    countsList.length = 256 ∧
    countsList.getD i 0 = (bucket i).length ∧
    countsList.getD i 0 = readUInt32LE (levelBuffer i) 0 ∧
    ∃ pre, buildTrace compress = pre ++ [WriteEvent.indexFile countsList] ∧
      pre.length = 256 ∧ ∀ e ∈ pre, ∃ M d, e = WriteEvent.levelFile M d := by
  refine ⟨length_countsList, getD_countsList hi, ?_, buildTrace_structure compress⟩
  rw [getD_countsList hi, readUInt32LE_levelBuffer]

theorem index_artifact_witness :
    countsList.length = 256 ∧
    countsList.getD 0 0 = (bucket 0).length ∧
    countsList.getD 0 0 = readUInt32LE (levelBuffer 0) 0 ∧
    ∃ pre, buildTrace (fun b => b) = pre ++ [WriteEvent.indexFile countsList] ∧
      pre.length = 256 ∧ ∀ e ∈ pre, ∃ M d, e = WriteEvent.levelFile M d :=
  index_artifact (fun b => b) 0 (by decide)

/-- Claim C9: every brightness level `L` in `[0,255]` is attained by some
RGB triple with channels in `[0,255]` (the gray triple `(L,L,L)`), so every
one of the 256 buckets produced by the partitioner is non-empty. -/
theorem every_level_populated (L : Nat) (hL : L < 256) :
    (∃ r g b, r ≤ 255 ∧ g ≤ 255 ∧ b ≤ 255 ∧ brightness r g b = L) ∧
    bucket L ≠ [] :=
  ⟨⟨L, L, L, by omega, by omega, by omega, brightness_gray L⟩, bucket_ne_nil hL⟩

theorem every_level_populated_witness :
    (∃ r g b, r ≤ 255 ∧ g ≤ 255 ∧ b ≤ 255 ∧ brightness r g b = 0) ∧
    bucket 0 ≠ [] :=
  every_level_populated 0 (by decide)

/-- Claim C10: after the 4-byte count header and `R` 8-byte records the
serializer's final write offset is exactly `4 + 8R`, which never exceeds
the allocated buffer length `max (4 + 8R) 80`, and every record write ends
within the buffer. -/
theorem serializer_writes_in_bounds (T : Nat) (rs : List (List Nat)) :
    recordsEndOffset 4 rs = 4 + 8 * rs.length ∧
    recordsEndOffset 4 rs ≤ (serializeLevel T rs).length ∧
    ∀ i, i < rs.length → 4 + 8 * i + 8 ≤ (serializeLevel T rs).length := by
  refine ⟨recordsEndOffset_eq rs 4, ?_, ?_⟩
  · rw [recordsEndOffset_eq rs 4, length_serializeLevel]
    omega
  · intro i hi
    rw [length_serializeLevel]
    omega

theorem serializer_writes_in_bounds_witness :
    recordsEndOffset 4 [[5]] = 4 + 8 * ([[5]] : List (List Nat)).length ∧
    recordsEndOffset 4 [[5]] ≤ (serializeLevel 1 [[5]]).length ∧
    ∀ i, i < ([[5]] : List (List Nat)).length →
      4 + 8 * i + 8 ≤ (serializeLevel 1 [[5]]).length :=
  serializer_writes_in_bounds 1 [[5]]
